import Mathlib

/-
Verification development for the review-request workflow engine
(reviewboard/reviews/models.py).  The Python source is shallowly embedded:
pure helpers become Lean functions, stateful methods become functions on
explicit state records, exceptions become Except/Option results.
External collaborators (Django ORM internals, the regex engine, apps of the
repository that are not part of the source tree such as changedescs and
managers) are modelled from the spec where noted.
-/

namespace RB

/-! ## Basic string helpers -/

/-- The model for the review request summary only allows it to be 300 chars
long (reviews/models.py line 38). -/
def MAX_SUMMARY_LENGTH : Nat := 300

/-- Last index at which the predicate holds, like Python str.rfind restricted
to a single character (None modelled as Option.none). -/
def lastIdxP (p : α → Bool) : List α → Option Nat
  | [] => none
  | a :: t =>
    match lastIdxP p t with
    | some i => some (i + 1)
    | none => if p a then some 0 else none

/-- Python string.rfind for a single character, returning an index option. -/
def rfindChar (l : List Char) (c : Char) : Option Nat :=
  lastIdxP (fun ch => ch = c) l

/-- Embeds truncate (reviews/models.py lines 66-74): truncate to num chars;
if truncation happened, cut back to just after the last period, when one
exists in the truncated prefix. -/
def truncate (s : String) (num : Nat) : String :=
  if s.length > num then
    let t := s.data.take num
    match rfindChar t '.' with
    | some i => ⟨t.take (i + 1)⟩
    | none => ⟨t⟩
  else s

/-- Characters stripped by Python str.strip and int() whitespace handling. -/
def isPySpace (c : Char) : Bool :=
  c = ' ' || c = '\t' || c = '\n' || c = '\x0b' || c = '\x0c' || c = '\r'

/-- Python str.strip: remove leading and trailing whitespace. -/
def pyStrip (s : String) : String :=
  ⟨((s.data.dropWhile isPySpace).reverse.dropWhile isPySpace).reverse⟩

/-! ## Bug list normalization (ReviewRequest.get_bug_list, lines 365-382) -/

/-- Separator class of the regex [, ]+ used by get_bug_list. -/
def isSep (c : Char) : Bool := c = ',' || c = ' '

/-- Embeds Python re.split with pattern [, ]+: split at maximal runs of
separators, keeping the (possibly empty) leading and trailing chunks exactly
as re.split does. -/
def pySplit : List Char → List (List Char)
  | [] => [[]]
  | c :: rest =>
    if isSep c then
      match rest with
      | [] => [[], []]
      | c2 :: _ => if isSep c2 then pySplit rest else [] :: pySplit rest
    else
      match pySplit rest with
      | [] => [[c]]
      | h :: t => (c :: h) :: t

/-- The token list re.split produces on a bug string. -/
def pySplitBugs (s : String) : List String :=
  (pySplit s.data).map (fun l => ⟨l⟩)

/-- Value of a digit list read in base 10. -/
def digitsVal (l : List Char) : Nat :=
  l.foldl (fun acc c => acc * 10 + (c.toNat - 48)) 0

/-- Embeds Python 2 int(string): strip whitespace, optional sign, then a
nonempty run of decimal digits consuming the whole token; failure (the
ValueError) is modelled as none. -/
def pyInt (s : String) : Option Int :=
  let l := ((s.data.dropWhile isPySpace).reverse.dropWhile isPySpace).reverse
  match l with
  | [] => none
  | '+' :: ds =>
    if !ds.isEmpty && ds.all Char.isDigit then some (digitsVal ds) else none
  | '-' :: ds =>
    if !ds.isEmpty && ds.all Char.isDigit then some (-(digitsVal ds : Int)) else none
  | ds =>
    if ds.all Char.isDigit then some (digitsVal ds) else none

/-- Integer key a token sorts by in the numeric branch (tokens in that branch
always parse, so the default is never observed). -/
def intVal (s : String) : Int := (pyInt s).getD 0

/-- Ordering used by bugs.sort with cmp=lambda x,y: cmp(int(x), int(y)). -/
def numericLe (a b : String) : Prop := intVal a ≤ intVal b

instance : DecidableRel numericLe := fun a b => Int.decLe (intVal a) (intVal b)

instance : IsTotal String numericLe := ⟨fun a b => Int.le_total (intVal a) (intVal b)⟩

instance : IsTrans String numericLe :=
  ⟨fun _ _ _ h1 h2 => le_trans h1 h2⟩

/-- Lexicographic comparison on code points, as Python compares strings. -/
def lexLeB : List Char → List Char → Bool
  | [], _ => true
  | _ :: _, [] => false
  | a :: as_, b :: bs => a.toNat < b.toNat || (a.toNat = b.toNat && lexLeB as_ bs)

/-- Python's default string ordering (byte/code-point lexicographic),
used by the plain bugs.sort() fallback. -/
def strLe (a b : String) : Prop := lexLeB a.data b.data = true

instance : DecidableRel strLe := fun a b =>
  instDecidableEqBool (lexLeB a.data b.data) true

instance : IsTotal String strLe := by
  constructor
  intro a b
  show lexLeB a.data b.data = true ∨ lexLeB b.data a.data = true
  generalize a.data = x
  generalize b.data = y
  induction x generalizing y with
  | nil => exact Or.inl rfl
  | cons c cs ih =>
    cases y with
    | nil => exact Or.inr rfl
    | cons d ds =>
      rcases Nat.lt_trichotomy c.toNat d.toNat with h | h | h
      · left; simp [lexLeB, h]
      · rcases ih ds with h2 | h2
        · left; simp [lexLeB, h, h2]
        · right; simp [lexLeB, h, h2]
      · right; simp [lexLeB, h]

instance : IsTrans String strLe := by
  constructor
  intro a b c hab hbc
  show lexLeB a.data c.data = true
  rw [strLe] at hab hbc
  generalize a.data = x at hab ⊢
  generalize b.data = y at hab hbc
  generalize c.data = z at hbc ⊢
  induction x generalizing y z with
  | nil => rfl
  | cons cx xs ih =>
    cases y with
    | nil => simp [lexLeB] at hab
    | cons cy ys =>
      cases z with
      | nil => simp [lexLeB] at hbc
      | cons cz zs =>
        simp only [lexLeB, Bool.or_eq_true, Bool.and_eq_true, decide_eq_true_eq] at hab hbc ⊢
        rcases hab with h1 | ⟨h1, h1r⟩
        · rcases hbc with h2 | ⟨h2, _⟩
          · exact Or.inl (Nat.lt_trans h1 h2)
          · exact Or.inl (h2 ▸ h1)
        · rcases hbc with h2 | ⟨h2, h2r⟩
          · exact Or.inl (h1 ▸ h2)
          · exact Or.inr ⟨h1.trans h2, ih ys h1r zs h2r⟩

/-- Embeds ReviewRequest.get_bug_list / ReviewRequestDraft.get_bug_list:
empty field gives no bugs; otherwise split on [, ]+ and sort numerically when
every token parses as an int (Python's cmp-based sort is stable, as is
insertionSort), falling back to the lexical string sort on ValueError
(a total order, so the partially-sorted intermediate state is irrelevant). -/
def get_bug_list (s : String) : List String :=
  if s = "" then []
  else
    let bugs := pySplitBugs s
    if bugs.all (fun t => (pyInt t).isSome) then
      List.insertionSort numericLe bugs
    else
      List.insertionSort strLe bugs

/-- Comma-join of a bug list, as in ','.join(...) at the persistence
boundary (spec section 6: comma-joined canonical form). -/
def joinChunks : List (List Char) → List Char
  | [] => []
  | [c] => c
  | c :: rest => c ++ ',' :: joinChunks rest

/-- Comma-join on strings. -/
def joinBugs (ts : List String) : String :=
  ⟨joinChunks (ts.map String.data)⟩

/-- A bug field is valid when it is empty or consists of nonempty tokens
separated by commas/spaces (no leading, trailing or doubled separators). -/
def validBugString (s : String) : Prop :=
  s = "" ∨ ∀ ck ∈ pySplit s.data, ck ≠ []

instance (s : String) : Decidable (validBugString s) := by
  unfold validBugString
  exact inferInstance

/-! ## Issue statuses (BaseComment, lines 1278-1317) -/

/-- Embeds BaseComment.issue_status_to_string (lines 1297-1306). -/
def issue_status_to_string (status : String) : String :=
  if status = "O" then "open"
  else if status = "R" then "resolved"
  else if status = "D" then "dropped"
  else ""

/-- Embeds BaseComment.issue_string_to_status (lines 1308-1317); the raised
Exception on unknown input is modelled as none. -/
def issue_string_to_status (status : String) : Option String :=
  if status = "open" then some "O"
  else if status = "resolved" then some "R"
  else if status = "dropped" then some "D"
  else none

/-! ## Users, sites, repositories, groups (access-control data) -/

/-- A user as the access checks see one.  The capability flags stand for the
identity provider's has_perm answers for reviews.can_edit_reviewrequest and
reviews.can_change_status; authenticated is is_authenticated(), so an
AnonymousUser is the pk-irrelevant record with authenticated = false. -/
structure MUser where
  pk : Nat
  authenticated : Bool := true
  superuser : Bool := false
  can_edit : Bool := false
  can_change_status : Bool := false
deriving DecidableEq

/-- Modelled from the spec: LocalSite.is_accessible_by (site app, not under
src/) answers IsAccessible(site, user); a site grants access to an explicit
set of users, held here as a pk list. -/
structure LocalSiteM where
  members : List Nat := []
deriving DecidableEq

def LocalSiteM.is_accessible_by (s : LocalSiteM) (u : MUser) : Bool :=
  s.members.contains u.pk

/-- Modelled from the spec: Repository.is_accessible_by (scmtools app, not
under src/) — the repository is public or the user is on its access list. -/
structure RepoM where
  publicRepo : Bool := true
  allowed : List Nat := []
deriving DecidableEq

def RepoM.is_accessible_by (r : RepoM) (u : MUser) : Bool :=
  r.publicRepo || r.allowed.contains u.pk

/-- The Group fields used by its access predicate (reviews/models.py
lines 77-132); users is the member pk set. -/
structure GroupM where
  invite_only : Bool := false
  local_site : Option LocalSiteM := none
  users : List Nat := []
deriving DecidableEq

/-- Embeds Group.is_accessible_by (lines 107-115). -/
def GroupM.is_accessible_by (g : GroupM) (u : MUser) : Bool :=
  (match g.local_site with
   | some s => s.is_accessible_by u
   | none => true) &&
  (!g.invite_only || u.superuser || (u.authenticated && g.users.contains u.pk))

/-- The ReviewRequest fields consulted by is_accessible_by; target people are
pks, target groups are embedded group records. -/
structure RRAccess where
  public : Bool := false
  repository : Option RepoM := none
  target_people : List Nat := []
  target_groups : List GroupM := []
  submitter : MUser
deriving DecidableEq

/-- Embeds ReviewRequest.is_mutable_by (lines 537-541): only the
can_edit_reviewrequest capability grants edit rights (the ownership check is
commented out in the source). -/
def is_mutable_by (u : MUser) : Bool := u.can_edit

/-- Embeds ReviewRequest.is_accessible_by (lines 476-535).  allGroups is the
database's group table; Group.objects.accessible(submitter) (managers.py,
not under src/) is modelled from the spec as the groups the submitter can
access.  Django model equality compares pks and an AnonymousUser is never
equal to a persisted User, hence the authenticated guard on the submitter
comparison. -/
def RRAccess.is_accessible_by (allGroups : List GroupM) (r : RRAccess)
    (u : MUser) (local_site : Option LocalSiteM) : Bool :=
  if !r.public && !is_mutable_by u then false
  else if (match r.repository with
           | some repo => !repo.is_accessible_by u
           | none => false) then false
  else if (match local_site with
           | some s => !s.is_accessible_by u
           | none => false) then false
  else if u.authenticated && r.target_people.contains u.pk then true
  else if r.target_groups.isEmpty then true
  else if r.target_groups.any (fun g => g.is_accessible_by u) then true
  else if (allGroups.filter (fun g => g.is_accessible_by r.submitter)).any
            (fun g => g.is_accessible_by u) then true
  else if u.authenticated && r.submitter.pk == u.pk then true
  else false

/-- The CanView predicate exactly as the spec sentence words it, for
comparison with the embedded code: the otherwise-branch applies as soon as
the request has target groups or target people. -/
def spec_canView (allGroups : List GroupM) (r : RRAccess) (u : MUser)
    (local_site : Option LocalSiteM) : Bool :=
  (r.public || is_mutable_by u) &&
  (match r.repository with
   | some repo => repo.is_accessible_by u
   | none => true) &&
  (match local_site with
   | some s => s.is_accessible_by u
   | none => true) &&
  (if r.target_groups.isEmpty && r.target_people.isEmpty then true
   else
     (u.authenticated && r.target_people.contains u.pk) ||
     r.target_groups.any (fun g => g.is_accessible_by u) ||
     (allGroups.filter (fun g => g.is_accessible_by r.submitter)).any
       (fun g => g.is_accessible_by u) ||
     (u.authenticated && r.submitter.pk == u.pk))

/-- The amended CanView predicate: identical to spec_canView except that the
anyone-visible case requires only the target group list to be empty,
matching the code's early return. -/
def amended_canView (allGroups : List GroupM) (r : RRAccess) (u : MUser)
    (local_site : Option LocalSiteM) : Bool :=
  (r.public || is_mutable_by u) &&
  (match r.repository with
   | some repo => repo.is_accessible_by u
   | none => true) &&
  (match local_site with
   | some s => s.is_accessible_by u
   | none => true) &&
  ((u.authenticated && r.target_people.contains u.pk) ||
   r.target_groups.isEmpty ||
   r.target_groups.any (fun g => g.is_accessible_by u) ||
   (allGroups.filter (fun g => g.is_accessible_by r.submitter)).any
     (fun g => g.is_accessible_by u) ||
   (u.authenticated && r.submitter.pk == u.pk))

/-! ## Change descriptions and the lifecycle state -/

/-- Old/new values stored in a field change: scalar strings, the status
character, id collections of relational fields, and bug string lists. -/
inductive FieldVal
  | s (v : String)
  | ch (v : Char)
  | ids (v : List Nat)
  | strs (v : List String)
deriving DecidableEq

/-- Entries of fields_changed: an old/new pair, the aggregated caption-change
map keyed by item id, or the added-diff record. -/
inductive CDVal
  | change (old new : FieldVal)
  | captions (m : List (Nat × String × String))
  | diffAdded (id : Nat)
deriving DecidableEq

/-- Modelled from the spec: ChangeDescription (changedescs app, not under
src/) carries free text, a publish flag, a timestamp and a map from
field name to old/new values; the map is an association list here. -/
structure ChangeDesc where
  text : String := ""
  public : Bool := false
  timestamp : Nat := 0
  fields_changed : List (String × CDVal) := []
deriving DecidableEq

/-- Modelled from the spec: ChangeDescription.record_field_change stores the
old/new pair under the field name. -/
def ChangeDesc.record (cd : ChangeDesc) (name : String) (old new : FieldVal) :
    ChangeDesc :=
  { cd with fields_changed := cd.fields_changed ++ [(name, .change old new)] }

/-- A screenshot or file attachment as the publish path sees it: an id plus
the live and draft captions (Screenshot lines 169-250; FileAttachment lives
in the attachments app and is handled identically by the draft code). -/
structure MediaObj where
  id : Nat
  caption : String := ""
  draft_caption : String := ""
deriving DecidableEq

/-- The draft rows of ReviewRequestDraft (lines 896-953): scalar fields,
target/screenshot/attachment id sets, the optional pending diffset and the
optional attached change description. -/
structure DraftM where
  summary : String := ""
  description : String := ""
  testing_done : String := ""
  bugs_closed : String := ""
  branch : String := ""
  target_groups : List Nat := []
  target_people : List Nat := []
  screenshots : List Nat := []
  inactive_screenshots : List Nat := []
  file_attachments : List Nat := []
  inactive_file_attachments : List Nat := []
  diffset : Option Nat := none
  changedesc : Option ChangeDesc := none
deriving DecidableEq

/-- One review request with its related rows: the request fields
(lines 253-348), the chronological change-description history, the
at-most-one draft, the screenshot/attachment object store the m2m id sets
point into, the diffset history, and a logical clock standing for
datetime.now(). -/
structure RRState where
  status : Char := 'P'
  public : Bool := false
  summary : String := ""
  description : String := ""
  testing_done : String := ""
  bugs_closed : String := ""
  branch : String := ""
  target_groups : List Nat := []
  target_people : List Nat := []
  screenshots : List Nat := []
  inactive_screenshots : List Nat := []
  file_attachments : List Nat := []
  inactive_file_attachments : List Nat := []
  changedescs : List ChangeDesc := []
  draft : Option DraftM := none
  screenshotObjs : List MediaObj := []
  fileObjs : List MediaObj := []
  diffset_history : List Nat := []
  now : Nat := 0
deriving DecidableEq

/-- Errors raised by the lifecycle methods: PermissionError, the
AttributeError of an invalid close type, and the DoesNotExist of a missing
latest change description. -/
inductive LErr
  | permission
  | attributeError
  | doesNotExist
deriving DecidableEq

/-- Signals sent by the lifecycle methods (reviews/signals.py). -/
inductive LEvent
  | published (cd : Option ChangeDesc)
  | closed (type : Char)
  | reopened
deriving DecidableEq

/-- Permission guard shared by close and reopen (lines 688-690, 728-730):
denied when a user is supplied who can neither edit nor change status. -/
def permDenied (user : Option MUser) : Bool :=
  match user with
  | some u => !is_mutable_by u && !u.can_change_status
  | none => false

/-- Embeds ReviewRequest.save (lines 626-638) minus the counter hook, which
the counter world below carries: strip the bug field and truncate the
summary. -/
def rrSave (st : RRState) : RRState :=
  { st with bugs_closed := pyStrip st.bugs_closed,
            summary := truncate st.summary MAX_SUMMARY_LENGTH }

/-- Embeds ReviewRequestDraft.save (lines 977-980). -/
def draftSave (d : DraftM) : DraftM :=
  { d with bugs_closed := pyStrip d.bugs_closed,
           summary := truncate d.summary MAX_SUMMARY_LENGTH }

/-- Stamps draft captions from live captions on the objects with the given
ids, as ReviewRequestDraft.create does for each copied screenshot and
attachment. -/
def setDraftCaptions (objs : List MediaObj) (ids : List Nat) : List MediaObj :=
  objs.map (fun o => if ids.contains o.id then { o with draft_caption := o.caption } else o)

/-- Embeds ReviewRequestDraft.create (lines 982-1032): get-or-create keyed on
the request; a change description is attached when the request is public and
none is attached yet; on first creation the field values, target sets and
screenshot/attachment sets are copied and each copied object's draft caption
is seeded from its live caption. -/
def draftCreate (st : RRState) : RRState :=
  match st.draft with
  | some d =>
    let d2 := if d.changedesc.isNone && st.public
              then { d with changedesc := some {} } else d
    { st with draft := some d2 }
  | none =>
    let d0 : DraftM :=
      { summary := st.summary, description := st.description,
        testing_done := st.testing_done, bugs_closed := st.bugs_closed,
        branch := st.branch }
    let d1 := if st.public then { d0 with changedesc := some ({} : ChangeDesc) } else d0
    let d2 :=
      { d1 with target_groups := st.target_groups,
                target_people := st.target_people,
                screenshots := st.screenshots,
                inactive_screenshots := st.inactive_screenshots,
                file_attachments := st.file_attachments,
                inactive_file_attachments := st.inactive_file_attachments }
    let sObjs := setDraftCaptions (setDraftCaptions st.screenshotObjs st.screenshots)
                   st.inactive_screenshots
    let fObjs := setDraftCaptions (setDraftCaptions st.fileObjs st.file_attachments)
                   st.inactive_file_attachments
    { st with draft := some (draftSave d2), screenshotObjs := sObjs, fileObjs := fObjs }

/-- Replaces the element at an index, leaving the list unchanged when the
index is out of range. -/
def modifyAt (l : List α) (i : Nat) (f : α → α) : List α :=
  match l, i with
  | [], _ => []
  | a :: t, 0 => f a :: t
  | a :: t, n + 1 => a :: modifyAt t n f

/-- Embeds ReviewRequest.close (lines 683-722).  On an actual status change a
public change description recording the status transition is appended and
the closed signal fires; on a repeated close the latest public change
description (history is chronological, so the last public entry) gets the
new text and timestamp and no signal fires.  Both paths delete the draft. -/
def ReviewRequest.close (st : RRState) (type : Char) (user : Option MUser)
    (description : Option String) : Except LErr (RRState × List LEvent) :=
  if permDenied user then .error .permission
  else if !(type = 'S' || type = 'D') then .error .attributeError
  else if st.status ≠ type then
    let cd : ChangeDesc :=
      { text := description.getD "", public := true, timestamp := st.now,
        fields_changed := [("status", .change (.ch st.status) (.ch type))] }
    let st2 := rrSave { st with changedescs := st.changedescs ++ [cd], status := type }
    .ok ({ st2 with draft := none, now := st2.now + 1 }, [.closed type])
  else
    match lastIdxP (fun c => c.public) st.changedescs with
    | none => .error .doesNotExist
    | some i =>
      let upd := fun (c : ChangeDesc) =>
        { c with timestamp := st.now, text := description.getD "" }
      let st2 := rrSave { st with changedescs := modifyAt st.changedescs i upd }
      .ok ({ st2 with draft := none, now := st2.now + 1 }, [])

/-- Embeds ReviewRequest.reopen (lines 724-753).  Reopening from discarded
makes the request non-public and hands the (non-public) reopening change
description to a freshly ensured draft; reopening from submitted appends it
to the history as a public entry.  The reopened signal fires even when the
request is already pending. -/
def ReviewRequest.reopen (st : RRState) (user : Option MUser) :
    Except LErr (RRState × List LEvent) :=
  if permDenied user then .error .permission
  else if st.status ≠ 'P' then
    let cd0 : ChangeDesc :=
      { timestamp := st.now,
        fields_changed := [("status", .change (.ch st.status) (.ch 'P'))] }
    if st.status = 'D' then
      let stA := draftCreate { st with public := false }
      let stB :=
        match stA.draft with
        | some d => { stA with draft := some (draftSave { d with changedesc := some cd0 }) }
        | none => stA
      let stC := rrSave { stB with status := 'P' }
      .ok ({ stC with now := stC.now + 1 }, [.reopened])
    else
      let cd := { cd0 with public := true }
      let stB := rrSave { st with changedescs := st.changedescs ++ [cd], status := 'P' }
      .ok ({ stB with now := stB.now + 1 }, [.reopened])
  else
    .ok (st, [.reopened])

/-! ## Draft publish (ReviewRequestDraft.publish, lines 1078-1264) -/

/-- Set equality of id collections, as symmetric_difference-is-empty tests
it. -/
def eqAsSets (a b : List Nat) : Bool :=
  a.all (fun x => b.contains x) && b.all (fun x => a.contains x)

/-- Set equality of bug lists, as set(old_bugs) != set(new_bugs) tests it. -/
def eqAsStrSets (a b : List String) : Bool :=
  a.all (fun x => b.contains x) && b.all (fun x => a.contains x)

/-- Embeds the update_field closure (lines 1129-1139): when the scalar values
differ, record the old/new pair on the change description (when one exists)
and adopt the draft value. -/
def update_field (cd : Option ChangeDesc) (name : String) (oldv newv : String) :
    Option ChangeDesc × String :=
  if oldv ≠ newv then
    (cd.map (fun c => c.record name (.s oldv) (.s newv)), newv)
  else (cd, oldv)

/-- Embeds the update_list closure (lines 1141-1151): when the id sets
differ, record old/new collections and replace the live set with the draft
set (clear then re-add). -/
def update_list (cd : Option ChangeDesc) (name : String) (a b : List Nat) :
    Option ChangeDesc × List Nat :=
  if !eqAsSets a b then
    (cd.map (fun c => c.record name (.ids a) (.ids b)), b)
  else (cd, a)

/-- Direct fields_changed assignment, as the screenshot_captions,
file_captions and diff entries are written. -/
def cdSetField (cd : Option ChangeDesc) (name : String) (v : CDVal) :
    Option ChangeDesc :=
  cd.map (fun c => { c with fields_changed := c.fields_changed ++ [(name, v)] })

def lookupObj (objs : List MediaObj) (i : Nat) : Option MediaObj :=
  objs.find? (fun o => o.id == i)

/-- Embeds the caption pass of publish (lines 1176-1193 and 1203-1220): walk
the live item ids; every item also on the draft whose caption differs from
its draft caption gets the draft caption copied and an old/new entry
collected. -/
def applyCaptions (objs : List MediaObj) (rrIds draftIds : List Nat) :
    List MediaObj × List (Nat × String × String) :=
  match rrIds with
  | [] => (objs, [])
  | i :: rest =>
    match lookupObj objs i with
    | none => applyCaptions objs rest draftIds
    | some o =>
      if draftIds.contains i && o.caption != o.draft_caption then
        let objs2 := objs.map
          (fun x => if x.id == i then { x with caption := x.draft_caption } else x)
        let r := applyCaptions objs2 rest draftIds
        (r.1, (i, o.caption, o.draft_caption) :: r.2)
      else applyCaptions objs rest draftIds

/-- Embeds ReviewRequestDraft.publish (lines 1120-1264), pure part: a change
description is created exactly when none is attached and the request is
public; scalar fields, target sets, bug sets, screenshot/attachment sets and
captions are diffed in source order; a pending diffset adds a diff entry and
is re-parented onto the request's history; a touched change description is
stamped, made public and appended to the history; finally the request is
saved.  Returns the updated state and the change description. -/
def draftPublish (d : DraftM) (st : RRState) : RRState × Option ChangeDesc :=
  let cd0 := if d.changedesc.isNone && st.public then some ({} : ChangeDesc)
             else d.changedesc
  let r1 := update_field cd0 "summary" st.summary d.summary
  let r2 := update_field r1.1 "description" st.description d.description
  let r3 := update_field r2.1 "testing_done" st.testing_done d.testing_done
  let r4 := update_field r3.1 "branch" st.branch d.branch
  let r5 := update_list r4.1 "target_groups" st.target_groups d.target_groups
  let r6 := update_list r5.1 "target_people" st.target_people d.target_people
  let old_bugs := get_bug_list st.bugs_closed
  let new_bugs := get_bug_list d.bugs_closed
  let bugsDiffer := !eqAsStrSets old_bugs new_bugs
  let bugs1 := if bugsDiffer then
                 (if st.bugs_closed ≠ d.bugs_closed then d.bugs_closed
                  else st.bugs_closed)
               else st.bugs_closed
  let cd7 := if bugsDiffer then
               r6.1.map (fun c => c.record "bugs_closed" (.strs old_bugs) (.strs new_bugs))
             else r6.1
  let sc := applyCaptions st.screenshotObjs st.screenshots d.screenshots
  let cd8 := if !sc.2.isEmpty then cdSetField cd7 "screenshot_captions" (.captions sc.2)
             else cd7
  let r9 := update_list cd8 "screenshots" st.screenshots d.screenshots
  let fc := applyCaptions st.fileObjs st.file_attachments d.file_attachments
  let cd10 := if !fc.2.isEmpty then cdSetField r9.1 "file_captions" (.captions fc.2)
              else r9.1
  let r11 := update_list cd10 "files" st.file_attachments d.file_attachments
  let cd12 := match d.diffset with
              | some ds => cdSetField r11.1 "diff" (.diffAdded ds)
              | none => r11.1
  let hist := match d.diffset with
              | some ds => st.diffset_history ++ [ds]
              | none => st.diffset_history
  let cdF := cd12.map (fun c => { c with timestamp := st.now, public := true })
  let descs := st.changedescs ++ (match cdF with | some c => [c] | none => [])
  let st2 := rrSave { st with
      summary := r1.2, description := r2.2, testing_done := r3.2, branch := r4.2,
      target_groups := r5.2, target_people := r6.2,
      bugs_closed := bugs1,
      screenshots := r9.2, inactive_screenshots := d.inactive_screenshots,
      file_attachments := r11.2,
      inactive_file_attachments := d.inactive_file_attachments,
      screenshotObjs := sc.1, fileObjs := fc.1,
      diffset_history := hist,
      changedescs := descs }
  (st2, cdF)

/-- Embeds ReviewRequest.publish (lines 762-809) minus the counter
decrements, which the counter world below carries: the permission check
comes first and aborts before any mutation; then the draft, when present, is
published and deleted; the request becomes public and is saved; the
published signal carries the resulting change description. -/
def ReviewRequest.publish (st : RRState) (user : MUser) :
    Except LErr (RRState × List LEvent) :=
  if !is_mutable_by user then .error .permission
  else
    let pr := match st.draft with
              | some d =>
                let r := draftPublish d st
                ({ r.1 with draft := none }, r.2)
              | none => (st, (none : Option ChangeDesc))
    let st2 := rrSave { pr.1 with public := true }
    .ok ({ st2 with now := st2.now + 1 }, [.published pr.2])

/-! ## Counter world: a group's incoming_request_count over many requests -/

/-- Projection of one review request onto the data a single observed group's
counter depends on: its status, publicity and whether it targets the
group. -/
structure CReq where
  id : Nat
  status : Char
  public : Bool
  targets : Bool
deriving DecidableEq

/-- The observed group's world: the live requests, the incrementally
maintained incoming_request_count (djblets CounterField, an atomic integer
add per the spec's Counter Store), and an id source. -/
structure CWorld where
  requests : List CReq := []
  counter : Int := 0
  nextId : Nat := 1
deriving DecidableEq

def tval (b : Bool) : Int := if b then 1 else 0

/-- Modelled from the spec: the CounterField initializer (line 96-99)
re-derives the count through ReviewRequestManager.to_group (managers.py, not
under src/), which counts the public, pending review requests targeting the
group. -/
def recompute (w : CWorld) : Int :=
  ((w.requests.filter (fun r => r.public && r.status == 'P' && r.targets)).length : Int)

def findReq (w : CWorld) (i : Nat) : Option CReq :=
  w.requests.find? (fun r => r.id == i)

def setReq (w : CWorld) (r : CReq) (counter : Int) : CWorld :=
  { w with requests := w.requests.map (fun x => if x.id == r.id then r else x),
           counter := counter }

/-- Embeds the group-counter branch of ReviewRequest._update_counts
(lines 842-883): a pending save increments the group counter when the
request is public (and persisted); a non-pending save decrements it when the
request was public in the database. -/
def updateCountsGroup (counter : Int) (old_public : Bool) (r : CReq) : Int :=
  if r.status == 'P' then
    (if r.public then counter + tval r.targets else counter)
  else
    (if old_public then counter - tval r.targets else counter)

/-- Create: a new pending, non-public request; the first save runs
_update_counts with id None, which touches only the submitter's outgoing
counters, never the group counter. -/
def cwCreate (w : CWorld) (targets : Bool) : CWorld :=
  { w with requests := w.requests ++ [⟨w.nextId, 'P', false, targets⟩],
           nextId := w.nextId + 1 }

/-- Embeds the counter effects of ReviewRequest.publish (lines 762-809): a
public request first loses its contribution for the current target set; the
draft merge may replace the target set; then public is set and the save
re-runs _update_counts against the new values, with old_public read from the
database (the pre-publish value). -/
def cwPublish (w : CWorld) (i : Nat) (newTargets : Option Bool) : CWorld :=
  match findReq w i with
  | none => w
  | some r =>
    let c1 := if r.public then w.counter - tval r.targets else w.counter
    let r1 := { r with targets := newTargets.getD r.targets }
    let old_public := r1.public
    let r2 := { r1 with public := true }
    setReq w r2 (updateCountsGroup c1 old_public r2)

/-- Embeds the counter effects of ReviewRequest.close (lines 683-722): only
an actual status change saves with update_counts=True. -/
def cwClose (w : CWorld) (i : Nat) (type : Char) : CWorld :=
  match findReq w i with
  | none => w
  | some r =>
    if r.status ≠ type then
      let r2 := { r with status := type }
      setReq w r2 (updateCountsGroup w.counter r.public r2)
    else w

/-- Embeds the counter effects of ReviewRequest.reopen (lines 724-753):
reopening from discarded clears public before the update_counts save,
reopening from submitted keeps it. -/
def cwReopen (w : CWorld) (i : Nat) : CWorld :=
  match findReq w i with
  | none => w
  | some r =>
    if r.status ≠ 'P' then
      let r1 := if r.status = 'D' then { r with public := false } else r
      let r2 := { r1 with status := 'P' }
      setReq w r2 (updateCountsGroup w.counter r1.public r2)
    else w

/-- Embeds the counter effects of ReviewRequest.delete (lines 640-678): a
public request's group contribution is decremented whatever its status, then
the row disappears. -/
def cwDelete (w : CWorld) (i : Nat) : CWorld :=
  match findReq w i with
  | none => w
  | some r =>
    let c1 := if r.public then w.counter - tval r.targets else w.counter
    { w with requests := w.requests.filter (fun x => !(x.id == i)), counter := c1 }

/-- The operations of the claimed counter invariant. -/
inductive COp
  | create (targets : Bool)
  | publish (id : Nat) (newTargets : Option Bool)
  | close (id : Nat) (type : Char)
  | reopen (id : Nat)
  | delete (id : Nat)
deriving DecidableEq

def cwStep (w : CWorld) : COp → CWorld
  | .create t => cwCreate w t
  | .publish i nt => cwPublish w i nt
  | .close i ty => cwClose w i ty
  | .reopen i => cwReopen w i
  | .delete i => cwDelete w i

def cwRun (w : CWorld) (ops : List COp) : CWorld := ops.foldl cwStep w

/-- The lifecycle of one published-then-submitted-then-deleted request
targeting the observed group. -/
def driftTrace : List COp :=
  [.create true, .publish 1 none, .close 1 'S', .delete 1]

/-! ## Default reviewer matching (lines 410-450 and 1034-1076) -/

/-- The DefaultReviewer fields matching reads: the path pattern and the
default people/group ids. -/
structure DefaultReviewerM where
  file_regex : String
  people : List Nat := []
  groups : List Nat := []
deriving DecidableEq

/-- A changed file of the diff (diffviewer FileDiff): source and destination
paths. -/
structure FileDiffM where
  source_file : String := ""
  dest_file : String := ""
deriving DecidableEq

/-- Python's filediff.source_file or filediff.dest_file: the source path
unless it is empty (falsy). -/
def fileName (f : FileDiffM) : String :=
  if f.source_file ≠ "" then f.source_file else f.dest_file

/-- Python set.add on a membership list. -/
def addUnique (l : List Nat) (x : Nat) : List Nat :=
  if l.contains x then l else l ++ [x]

/-- Per-rule body of the matching loops: the first matching changed path
activates the rule, adding all of its people and groups (the break makes one
match sufficient). -/
def collectRule (m : String → Bool) (files : List FileDiffM)
    (rule : DefaultReviewerM) (acc : List Nat × List Nat) : List Nat × List Nat :=
  if files.any (fun f => m (fileName f)) then
    (rule.people.foldl addUnique acc.1, rule.groups.foldl addUnique acc.2)
  else acc

/-- Embeds the rule loop of ReviewRequestDraft.add_default_reviewers
(lines 1054-1066).  compile models re.compile of the external regex engine;
none is the re.error of a malformed pattern, which the draft loop catches
and skips with continue. -/
def draftCollectReviewers (compile : String → Option (String → Bool))
    (files : List FileDiffM) :
    List DefaultReviewerM → List Nat × List Nat → List Nat × List Nat
  | [], acc => acc
  | rule :: rest, acc =>
    match compile rule.file_regex with
    | none => draftCollectReviewers compile files rest acc
    | some m => draftCollectReviewers compile files rest (collectRule m files rule acc)

/-- Embeds the rule loop of ReviewRequest.add_default_reviewers
(lines 431-440), which compiles each pattern with no exception handler: a
malformed pattern propagates re.error, modelled as an error result. -/
def rrCollectReviewers (compile : String → Option (String → Bool))
    (files : List FileDiffM) :
    List DefaultReviewerM → List Nat × List Nat → Except Unit (List Nat × List Nat)
  | [], acc => .ok acc
  | rule :: rest, acc =>
    match compile rule.file_regex with
    | none => .error ()
    | some m => rrCollectReviewers compile files rest (collectRule m files rule acc)

/-- The final add-missing-reviewers pass shared by both methods
(lines 442-450 and 1068-1076). -/
def applyReviewers (tp tg : List Nat) (pg : List Nat × List Nat) :
    List Nat × List Nat :=
  (pg.1.foldl addUnique tp, pg.2.foldl addUnique tg)

/-- Embeds ReviewRequestDraft.add_default_reviewers (lines 1034-1076): a
draft with no pending diffset returns unchanged; otherwise the rules are
matched with malformed patterns skipped and the results added to the target
sets. -/
def draft_add_default_reviewers (compile : String → Option (String → Bool))
    (rules : List DefaultReviewerM) (diffsetFiles : Option (List FileDiffM))
    (tp tg : List Nat) : List Nat × List Nat :=
  match diffsetFiles with
  | none => (tp, tg)
  | some files => applyReviewers tp tg (draftCollectReviewers compile files rules ([], []))

/-- Embeds ReviewRequest.add_default_reviewers (lines 410-450): a history
holding anything but exactly one diffset returns unchanged; otherwise the
rules are matched with no handler around compilation, so one malformed
pattern aborts the whole operation. -/
def rr_add_default_reviewers (compile : String → Option (String → Bool))
    (rules : List DefaultReviewerM) (diffsets : List (List FileDiffM))
    (tp tg : List Nat) : Except Unit (List Nat × List Nat) :=
  match diffsets with
  | [files] =>
    match rrCollectReviewers compile files rules ([], []) with
    | .ok pg => .ok (applyReviewers tp tg pg)
    | .error e => .error e
  | _ => .ok (tp, tg)

/-- A concrete regex compiler for checking the malformed-pattern behavior:
the pattern ( fails to compile (as it does under re.compile) and every other
pattern matches every path. -/
def parenBadCompile : String → Option (String → Bool) :=
  fun p => if p = "(" then none else some (fun _ => true)

/-- Discriminates the PermissionError result of a lifecycle call. -/
def isPermError : Except LErr α → Bool
  | .error .permission => true
  | _ => false

instance {ε α : Type} [DecidableEq ε] [DecidableEq α] : DecidableEq (Except ε α) := by
  intro a b
  cases a with
  | error e =>
    cases b with
    | error f => exact decidable_of_iff (e = f) (by simp)
    | ok y => exact isFalse (by simp)
  | ok x =>
    cases b with
    | error f => exact isFalse (by simp)
    | ok y => exact decidable_of_iff (x = y) (by simp)

/-! ## Theorems -/

/-- C10: on the three status characters the string conversion round-trips;
every other status renders as the empty string; every unknown status string
raises (none). -/
theorem issue_status_round_trip (s : String) :
    ((s = "O" ∨ s = "R" ∨ s = "D") →
      issue_string_to_status (issue_status_to_string s) = some s)
    ∧ (¬(s = "O" ∨ s = "R" ∨ s = "D") → issue_status_to_string s = "")
    ∧ (∀ t : String, ¬(t = "open" ∨ t = "resolved" ∨ t = "dropped") →
        issue_string_to_status t = none) := by
  refine ⟨?_, ?_, ?_⟩
  · rintro (rfl | rfl | rfl) <;> rfl
  · intro h
    have h1 : ¬ s = "O" := fun hh => h (Or.inl hh)
    have h2 : ¬ s = "R" := fun hh => h (Or.inr (Or.inl hh))
    have h3 : ¬ s = "D" := fun hh => h (Or.inr (Or.inr hh))
    simp only [issue_status_to_string, if_neg h1, if_neg h2, if_neg h3]
  · intro t h
    have h1 : ¬ t = "open" := fun hh => h (Or.inl hh)
    have h2 : ¬ t = "resolved" := fun hh => h (Or.inr (Or.inl hh))
    have h3 : ¬ t = "dropped" := fun hh => h (Or.inr (Or.inr hh))
    simp only [issue_string_to_status, if_neg h1, if_neg h2, if_neg h3]

/-- C10 witness: the round trip at R, the empty render at X, the raise at
zzz. -/
theorem issue_status_round_trip_witness :
    issue_string_to_status (issue_status_to_string "R") = some "R"
    ∧ issue_status_to_string "X" = ""
    ∧ issue_string_to_status "zzz" = none :=
  ⟨(issue_status_round_trip "R").1 (Or.inr (Or.inl rfl)),
   (issue_status_round_trip "X").2.1 (by decide),
   (issue_status_round_trip "X").2.2 "zzz" (by decide)⟩

/-- C2 counterexample: a public request with a target person but no target
groups.  The code grants any third party access (the empty-group early
return), while the claim's predicate — which requires both target lists to
be empty for the anyone-visible case — denies it. -/
theorem canView_claim_counterexample :
    RRAccess.is_accessible_by []
        { public := true, target_people := [2], submitter := { pk := 1 } }
        { pk := 3 } none = true
    ∧ spec_canView []
        { public := true, target_people := [2], submitter := { pk := 1 } }
        { pk := 3 } none = false := by
  decide

set_option maxHeartbeats 2000000 in
/-- C2 (amended): is_accessible_by equals the claimed characterization once
the anyone-visible case asks only for the target group list to be empty:
visible iff (public or can modify) and the repository, when set, is readable
and the supplied site, when set, is accessible and (the user is an
authenticated target person, or there are no target groups, or some target
group is accessible, or some group the submitter can access is accessible,
or the user is the submitter). -/
theorem canView_characterization (gs : List GroupM) (r : RRAccess) (u : MUser)
    (site : Option LocalSiteM) :
    RRAccess.is_accessible_by gs r u site = amended_canView gs r u site := by
  unfold RRAccess.is_accessible_by amended_canView
  rcases hrep : r.repository with _ | repo <;>
    rcases hsite : site with _ | ls <;>
      simp only <;>
        (repeat' split) <;>
          simp_all <;>
            rcases Bool.eq_false_or_eq_true r.public with hb | hb <;>
              simp_all

/-- C9: with no acting user, close never raises PermissionError (its only
failures are the invalid-type and missing-change-description errors) and
reopen always succeeds; publish checks its acting user up front and yields
PermissionError exactly for users without the edit capability, before
producing any state. -/
theorem lifecycle_permission_checks :
    (∀ (st : RRState) (type : Char) (desc : Option String),
       isPermError (ReviewRequest.close st type none desc) = false)
    ∧ (∀ st : RRState, ∃ out, ReviewRequest.reopen st none = .ok out)
    ∧ (∀ (st : RRState) (u : MUser),
       isPermError (ReviewRequest.publish st u) = !is_mutable_by u) := by
  refine ⟨?_, ?_, ?_⟩
  · intro st type desc
    unfold ReviewRequest.close
    simp only [permDenied, Bool.false_eq_true, if_false]
    split
    · rfl
    · split
      · rfl
      · split <;> rfl
  · intro st
    unfold ReviewRequest.reopen
    simp only [permDenied, Bool.false_eq_true, if_false]
    split
    · split
      · exact ⟨_, rfl⟩
      · exact ⟨_, rfl⟩
    · exact ⟨_, rfl⟩
  · intro st u
    unfold ReviewRequest.publish
    cases hm : is_mutable_by u <;> simp [isPermError]

theorem modifyAt_length (l : List α) (i : Nat) (f : α → α) :
    (modifyAt l i f).length = l.length := by
  induction l generalizing i with
  | nil => rfl
  | cons a t ih => cases i <;> simp [modifyAt, ih]

/-- C4: closing to a different status appends exactly one public
ChangeDescription recording the old/new status and fires the closed event;
re-closing to the same status rewrites the text and timestamp of the latest
public ChangeDescription in place, adding no entry and firing no event; both
paths delete the draft. -/
theorem close_spec (st : RRState) (type : Char) (user : Option MUser)
    (desc : Option String) (hperm : permDenied user = false)
    (htype : type = 'S' ∨ type = 'D') :
    (st.status ≠ type →
      ∃ st1, ReviewRequest.close st type user desc = .ok (st1, [.closed type])
        ∧ st1.changedescs = st.changedescs ++
            [{ text := desc.getD "", public := true, timestamp := st.now,
               fields_changed := [("status", .change (.ch st.status) (.ch type))] }]
        ∧ st1.status = type ∧ st1.draft = none)
    ∧ (st.status = type →
       ∀ i, lastIdxP (fun c => c.public) st.changedescs = some i →
        ∃ st1, ReviewRequest.close st type user desc = .ok (st1, [])
          ∧ st1.changedescs = modifyAt st.changedescs i
              (fun c => { c with timestamp := st.now, text := desc.getD "" })
          ∧ st1.changedescs.length = st.changedescs.length
          ∧ st1.status = st.status ∧ st1.draft = none) := by
  have htypeb : (!(decide (type = 'S') || decide (type = 'D'))) = false := by
    rcases htype with rfl | rfl <;> decide
  constructor
  · intro hne
    unfold ReviewRequest.close
    rw [hperm]
    simp only [Bool.false_eq_true, if_false, htypeb, if_pos hne]
    exact ⟨_, rfl, rfl, rfl, rfl⟩
  · intro heq i hi
    unfold ReviewRequest.close
    rw [hperm]
    simp only [Bool.false_eq_true, if_false, htypeb,
               if_neg (not_not_intro heq), hi]
    refine ⟨_, rfl, rfl, ?_, rfl, rfl⟩
    exact modifyAt_length st.changedescs i _

/-- C4 witness: closing a pending request to Submitted with text done, then
re-closing the resulting submitted request to Submitted with text done v2. -/
theorem close_spec_witness :
    (∃ st1, ReviewRequest.close { status := 'P' } 'S' none (some "done") = .ok (st1, [.closed 'S']) ∧ st1.changedescs = [{ text := "done", public := true, timestamp := 0, fields_changed := [("status", .change (.ch 'P') (.ch 'S'))] }] ∧ st1.status = 'S' ∧ st1.draft = none)
    ∧ (∃ st1, ReviewRequest.close { status := 'S', now := 1, changedescs := [{ text := "done", public := true, timestamp := 0, fields_changed := [("status", .change (.ch 'P') (.ch 'S'))] }] } 'S' none (some "done v2") = .ok (st1, []) ∧ st1.changedescs = [{ text := "done v2", public := true, timestamp := 1, fields_changed := [("status", .change (.ch 'P') (.ch 'S'))] }] ∧ st1.draft = none) := by
  constructor
  · obtain ⟨st1, h1, h2, h3, h4⟩ :=
      (close_spec { status := 'P' } 'S' none (some "done") rfl
        (Or.inl rfl)).1 (by decide)
    exact ⟨st1, h1, h2, h3, h4⟩
  · obtain ⟨st1, h1, h2, h3, h4, h5⟩ :=
      (close_spec { status := 'S', now := 1, changedescs := [{ text := "done", public := true, timestamp := 0, fields_changed := [("status", .change (.ch 'P') (.ch 'S'))] }] } 'S' none (some "done v2") rfl (Or.inl rfl)).2 rfl 0 (by decide)
    exact ⟨st1, h1, h2, h5⟩

/-- C5: reopen leaves an already-pending request's state untouched (the
reopened signal still fires); from Discarded the request becomes non-public
and a fresh draft carries the non-public reopening ChangeDescription; from
Submitted the status change is appended directly to the history as a public
entry and the public flag is unchanged. -/
theorem reopen_spec (st : RRState) (user : Option MUser)
    (hperm : permDenied user = false) :
    (st.status = 'P' → ReviewRequest.reopen st user = .ok (st, [.reopened]))
    ∧ (st.status = 'D' →
        ∃ st1, ReviewRequest.reopen st user = .ok (st1, [.reopened])
          ∧ st1.public = false ∧ st1.status = 'P'
          ∧ ∃ d, st1.draft = some d
              ∧ d.changedesc = some
                  { text := "", public := false, timestamp := st.now,
                    fields_changed := [("status", .change (.ch 'D') (.ch 'P'))] })
    ∧ (st.status = 'S' →
        ∃ st1, ReviewRequest.reopen st user = .ok (st1, [.reopened])
          ∧ st1.public = st.public ∧ st1.status = 'P'
          ∧ st1.changedescs = st.changedescs ++
              [{ text := "", public := true, timestamp := st.now,
                 fields_changed := [("status", .change (.ch 'S') (.ch 'P'))] }]
          ∧ st1.draft = st.draft) := by
  refine ⟨?_, ?_, ?_⟩
  · intro heq
    unfold ReviewRequest.reopen
    rw [hperm, heq]
    rfl
  · intro hD
    unfold ReviewRequest.reopen draftCreate
    rw [hperm, hD]
    cases hd : st.draft with
    | some d =>
      simp only [Bool.and_false]
      exact ⟨_, rfl, rfl, rfl, _, rfl, rfl⟩
    | none =>
      exact ⟨_, rfl, rfl, rfl, _, rfl, rfl⟩
  · intro hS
    unfold ReviewRequest.reopen
    rw [hperm, hS]
    exact ⟨_, rfl, rfl, rfl, rfl, rfl⟩

/-- C5 witness: reopening a pending, then a discarded, then a submitted
public request. -/
theorem reopen_spec_witness :
    (ReviewRequest.reopen { status := 'P', public := true } none =
      .ok ({ status := 'P', public := true }, [.reopened]))
    ∧ (∃ st1, ReviewRequest.reopen { status := 'D', public := true } none =
          .ok (st1, [.reopened])
        ∧ st1.public = false ∧ st1.status = 'P'
        ∧ ∃ d, st1.draft = some d
            ∧ d.changedesc = some
                { text := "", public := false, timestamp := 0,
                  fields_changed := [("status", .change (.ch 'D') (.ch 'P'))] })
    ∧ (∃ st1, ReviewRequest.reopen { status := 'S', public := true } none =
          .ok (st1, [.reopened])
        ∧ st1.public = true ∧ st1.status = 'P') := by
  refine ⟨?_, ?_, ?_⟩
  · exact (reopen_spec { status := 'P', public := true } none rfl).1 rfl
  · exact (reopen_spec { status := 'D', public := true } none rfl).2.1 rfl
  · obtain ⟨st1, h1, h2, h3, _, _⟩ :=
      (reopen_spec { status := 'S', public := true } none rfl).2.2 rfl
    exact ⟨st1, h1, h2, h3⟩

/-- C1: the claimed counter invariant fails on the code.  Running
create, publish, close-to-Submitted, delete on a request targeting the
group leaves the incrementally maintained incoming_request_count at -1 while
the from-scratch recomputation gives 0: close already decremented the
counter (the request stopped being pending), and delete decrements a second
time because it tests only the still-true public flag (models.py line 660)
and not the status. -/
theorem counter_drift_on_delete :
    (cwRun {} driftTrace).counter = -1
    ∧ recompute (cwRun {} driftTrace) = 0
    ∧ (cwRun {} driftTrace).counter ≠ recompute (cwRun {} driftTrace) := by
  decide

/-- C7 (amended): in ReviewRequestDraft.add_default_reviewers a rule whose
file_regex does not compile is skipped and matching continues with the
remaining rules, never raising (the function is total); but in
ReviewRequest.add_default_reviewers a malformed pattern aborts the whole
matching operation with the regex error. -/
theorem default_reviewer_malformed (compile : String → Option (String → Bool)) :
    (∀ (rules : List DefaultReviewerM) (files : List FileDiffM)
       (tp tg : List Nat),
       draft_add_default_reviewers compile rules (some files) tp tg =
         draft_add_default_reviewers compile
           (rules.filter (fun r => (compile r.file_regex).isSome))
           (some files) tp tg)
    ∧ (∀ (rules : List DefaultReviewerM) (files : List FileDiffM)
       (tp tg : List Nat),
       (∃ r ∈ rules, compile r.file_regex = none) →
         rr_add_default_reviewers compile rules [files] tp tg = .error ()) := by
  constructor
  · intro rules files tp tg
    have key : ∀ (rs : List DefaultReviewerM) (acc : List Nat × List Nat),
        draftCollectReviewers compile files rs acc =
          draftCollectReviewers compile files
            (rs.filter (fun r => (compile r.file_regex).isSome)) acc := by
      intro rs
      induction rs with
      | nil => intro acc; rfl
      | cons a rest ih =>
        intro acc
        cases hca : compile a.file_regex with
        | none =>
          simp only [List.filter_cons, hca, Option.isSome_none,
                     Bool.false_eq_true, if_false, draftCollectReviewers]
          exact ih acc
        | some m =>
          simp only [List.filter_cons, hca, Option.isSome_some, if_true,
                     draftCollectReviewers]
          exact ih (collectRule m files a acc)
    simp only [draft_add_default_reviewers]
    rw [key]
  · intro rules files tp tg hmal
    have key : ∀ (rs : List DefaultReviewerM) (acc : List Nat × List Nat),
        (∃ r ∈ rs, compile r.file_regex = none) →
          rrCollectReviewers compile files rs acc = .error () := by
      intro rs
      induction rs with
      | nil =>
        rintro acc ⟨r, hr, _⟩
        cases hr
      | cons a rest ih =>
        rintro acc ⟨r, hr, hc⟩
        rcases List.mem_cons.mp hr with rfl | hr2
        · simp only [rrCollectReviewers, hc]
        · cases hca : compile a.file_regex with
          | none => simp only [rrCollectReviewers, hca]
          | some m =>
            simp only [rrCollectReviewers, hca]
            exact ih _ ⟨r, hr2, hc⟩
    simp only [rr_add_default_reviewers]
    rw [key rules ([], []) hmal]

/-- C7 counterexample: with a single rule whose pattern does not compile,
ReviewRequest.add_default_reviewers raises (the regex error escapes), while
the claim says a malformed pattern never causes the matching operation to
raise. -/
theorem default_reviewer_raise_counterexample :
    rr_add_default_reviewers parenBadCompile
      [{ file_regex := "(" }] [[{ source_file := "a.py" }]] [] [] =
      .error () := rfl

/-- C7 witness: the amended claim at a concrete malformed rule set: the
draft path skips the bad rule (equal to matching only the well-formed rules)
and the request path errors. -/
theorem default_reviewer_malformed_witness :
    (draft_add_default_reviewers parenBadCompile
        [{ file_regex := "(" }, { file_regex := ".*", groups := [7] }]
        (some [{ source_file := "b.py" }]) [] [] =
      draft_add_default_reviewers parenBadCompile
        ([{ file_regex := "(" }, { file_regex := ".*", groups := [7] }].filter
          (fun r => (parenBadCompile r.file_regex).isSome))
        (some [{ source_file := "b.py" }]) [] [])
    ∧ rr_add_default_reviewers parenBadCompile
        [{ file_regex := "(" }, { file_regex := ".*", groups := [7] }]
        [[{ source_file := "b.py" }]] [] [] = .error () :=
  ⟨(default_reviewer_malformed parenBadCompile).1
      [{ file_regex := "(" }, { file_regex := ".*", groups := [7] }]
      [{ source_file := "b.py" }] [] [],
   (default_reviewer_malformed parenBadCompile).2
      [{ file_regex := "(" }, { file_regex := ".*", groups := [7] }]
      [{ source_file := "b.py" }] [] []
      ⟨{ file_regex := "(" }, by decide, rfl⟩⟩

theorem isSome_map_eq (o : Option α) (f : α → β) :
    (o.map f).isSome = o.isSome := by
  cases o <;> rfl

theorem update_field_self (cd : Option ChangeDesc) (n v : String) :
    update_field cd n v v = (cd, v) := by
  simp [update_field]

theorem update_list_of_eq (cd : Option ChangeDesc) (n : String)
    (a b : List Nat) (h : eqAsSets a b = true) :
    update_list cd n a b = (cd, a) := by
  simp [update_list, h]

theorem update_field_fst_isSome (cd : Option ChangeDesc) (n a b : String) :
    (update_field cd n a b).1.isSome = cd.isSome := by
  unfold update_field
  split <;> simp [isSome_map_eq]

theorem update_list_fst_isSome (cd : Option ChangeDesc) (n : String)
    (a b : List Nat) :
    (update_list cd n a b).1.isSome = cd.isSome := by
  unfold update_list
  split <;> simp [isSome_map_eq]

theorem cdSetField_isSome (cd : Option ChangeDesc) (n : String) (v : CDVal) :
    (cdSetField cd n v).isSome = cd.isSome := by
  simp [cdSetField, isSome_map_eq]

theorem applyCaptions_no_change (objs : List MediaObj) (rrIds draftIds : List Nat)
    (h : ∀ i ∈ rrIds, ∀ o, lookupObj objs i = some o →
      o.caption = o.draft_caption) :
    applyCaptions objs rrIds draftIds = (objs, []) := by
  induction rrIds with
  | nil => rfl
  | cons i rest ih =>
    have hrest : ∀ j ∈ rest, ∀ o, lookupObj objs j = some o →
        o.caption = o.draft_caption :=
      fun j hj => h j (List.mem_cons_of_mem _ hj)
    cases ho : lookupObj objs i with
    | none =>
      simp only [applyCaptions, ho]
      exact ih hrest
    | some o =>
      have hco : o.caption = o.draft_caption := h i (List.mem_cons_self _ _) o ho
      simp only [applyCaptions, ho, hco, bne_self_eq_false, Bool.and_false,
                 Bool.false_eq_true, if_false]
      exact ih hrest

/-- C3 (amended): a draft publish carries a ChangeDescription exactly when
the request is public or one was already attached (a fresh one is created
exactly when the request is public and none was attached); publishing a
draft with no field differences yields no ChangeDescription when the
request was not public and the draft carried none, a ChangeDescription with
zero field entries when the request was public, and adds no entry to an
already-attached ChangeDescription — never a spurious field entry. -/
theorem draft_publish_no_diff :
    (∀ (d : DraftM) (st : RRState),
       ((draftPublish d st).2).isSome = (st.public || d.changedesc.isSome))
    ∧ (∀ (d : DraftM) (st : RRState),
       st.summary = d.summary → st.description = d.description →
       st.testing_done = d.testing_done → st.branch = d.branch →
       eqAsSets st.target_groups d.target_groups = true →
       eqAsSets st.target_people d.target_people = true →
       eqAsStrSets (get_bug_list st.bugs_closed) (get_bug_list d.bugs_closed) = true →
       eqAsSets st.screenshots d.screenshots = true →
       eqAsSets st.file_attachments d.file_attachments = true →
       (∀ i ∈ st.screenshots, ∀ o, lookupObj st.screenshotObjs i = some o →
         o.caption = o.draft_caption) →
       (∀ i ∈ st.file_attachments, ∀ o, lookupObj st.fileObjs i = some o →
         o.caption = o.draft_caption) →
       d.diffset = none →
       ((d.changedesc = none →
         (draftPublish d st).2 =
           (if st.public then
              some { text := "", public := true, timestamp := st.now,
                     fields_changed := [] }
            else none))
        ∧ (∀ c0, d.changedesc = some c0 →
           (draftPublish d st).2 =
             some { c0 with timestamp := st.now, public := true }))) := by
  constructor
  · intro d st
    unfold draftPublish
    dsimp only
    repeat' split
    all_goals
      simp_all only [isSome_map_eq, cdSetField_isSome, update_field_fst_isSome,
        update_list_fst_isSome, Bool.and_eq_true, Option.isNone_iff_eq_none,
        Option.isSome_some, Option.isSome_none, Bool.or_eq_true]
    all_goals
      cases hcd : d.changedesc <;> cases hpub : st.public <;> simp_all
  · intro d st h1 h2 h3 h4 hg hp hb hs hf hcs hcf hds
    have hSC := applyCaptions_no_change st.screenshotObjs st.screenshots
      d.screenshots hcs
    have hFC := applyCaptions_no_change st.fileObjs st.file_attachments
      d.file_attachments hcf
    unfold draftPublish
    dsimp only
    rw [h1, h2, h3, h4, hSC, hFC, hds]
    simp only [update_field_self, update_list_of_eq _ _ _ _ hg,
      update_list_of_eq _ _ _ _ hp, update_list_of_eq _ _ _ _ hs,
      update_list_of_eq _ _ _ _ hf, hb, Bool.not_true, Bool.false_eq_true,
      if_false, List.isEmpty_nil]
    constructor
    · intro hnone
      rw [hnone]
      cases hpub : st.public <;>
        simp [Option.isNone_none, Bool.true_and]
    · intro c0 hc0
      rw [hc0]
      simp [Option.isNone_some, Bool.false_and]

/-- C3 counterexample: publishing an unchanged draft of an already-public
request does produce a ChangeDescription (with zero field entries), while
the claim as stated promises no ChangeDescription in the already-public
case. -/
theorem draft_publish_counterexample :
    (({ public := true, summary := "s" } : RRState)).public = true
    ∧ (draftPublish ({ summary := "s" } : DraftM)
        ({ public := true, summary := "s" } : RRState)).2 =
        some { text := "", public := true, timestamp := 0, fields_changed := [] } := by
  exact ⟨rfl, by decide⟩

/-- C3 witness: the amended claim at a concrete no-difference public
state. -/
theorem draft_publish_no_diff_witness :
    (draftPublish ({ summary := "s" } : DraftM)
      ({ public := true, summary := "s" } : RRState)).2 =
      some { text := "", public := true, timestamp := 0, fields_changed := [] } := by
  have h := (draft_publish_no_diff.2 { summary := "s" }
    { public := true, summary := "s" }
    rfl rfl rfl rfl (by decide) (by decide) (by decide) (by decide) (by decide)
    (fun i hi => absurd hi (List.not_mem_nil i))
    (fun i hi => absurd hi (List.not_mem_nil i)) rfl).1 rfl
  simpa using h

theorem lastIdxP_none_spec (p : α → Bool) (l : List α)
    (h : lastIdxP p l = none) : ∀ a ∈ l, p a = false := by
  induction l with
  | nil => intro a ha; cases ha
  | cons a t ih =>
    intro b hb
    unfold lastIdxP at h
    cases hlt : lastIdxP p t with
    | some i => rw [hlt] at h; cases h
    | none =>
      rw [hlt] at h
      rcases List.mem_cons.mp hb with rfl | hb2
      · cases hpb : p b with
        | true => rw [if_pos hpb] at h; cases h
        | false => rfl
      · exact ih hlt b hb2

theorem lastIdxP_some_spec (p : α → Bool) (l : List α) (i : Nat)
    (h : lastIdxP p l = some i) :
    i < l.length ∧ (∃ a, l.get? i = some a ∧ p a = true)
    ∧ ∀ j, i < j → ∀ a, l.get? j = some a → p a = false := by
  induction l generalizing i with
  | nil => cases h
  | cons a t ih =>
    unfold lastIdxP at h
    cases hlt : lastIdxP p t with
    | some k =>
      rw [hlt] at h
      injection h with h2
      subst h2
      obtain ⟨hlen, ⟨b, hget, hpb⟩, hafter⟩ := ih k hlt
      refine ⟨by simpa using Nat.succ_lt_succ hlen, ⟨b, by simpa using hget, hpb⟩, ?_⟩
      intro j hj c hget2
      cases j with
      | zero => omega
      | succ j2 =>
        simp only [List.get?] at hget2
        exact hafter j2 (by omega) c hget2
    | none =>
      rw [hlt] at h
      cases hpa : p a with
      | true =>
        rw [if_pos hpa] at h
        injection h with h2
        subst h2
        refine ⟨by simp, ⟨a, rfl, hpa⟩, ?_⟩
        intro j hj c hget2
        cases j with
        | zero => omega
        | succ j2 =>
          simp only [List.get?] at hget2
          exact lastIdxP_none_spec p t hlt c (List.get?_mem hget2)
      | false => rw [if_neg (by simp [hpa])] at h; cases h

/-- C6: both save paths store truncate(summary, 300); the truncated value
never exceeds 300 characters; and when the input exceeded 300 characters and
a period occurs in the first 300 characters, the stored value is the prefix
ending at the last such period. -/
theorem summary_truncation (s : String) (st : RRState) (d : DraftM) :
    (rrSave st).summary = truncate st.summary MAX_SUMMARY_LENGTH
    ∧ (draftSave d).summary = truncate d.summary MAX_SUMMARY_LENGTH
    ∧ (truncate s MAX_SUMMARY_LENGTH).length ≤ MAX_SUMMARY_LENGTH
    ∧ (s.length > MAX_SUMMARY_LENGTH → '.' ∈ s.data.take MAX_SUMMARY_LENGTH →
        ∃ i, (truncate s MAX_SUMMARY_LENGTH).data =
              (s.data.take MAX_SUMMARY_LENGTH).take (i + 1)
          ∧ (s.data.take MAX_SUMMARY_LENGTH).get? i = some '.'
          ∧ ∀ j, i < j → ∀ a,
              (s.data.take MAX_SUMMARY_LENGTH).get? j = some a → a ≠ '.') := by
  refine ⟨rfl, rfl, ?_, ?_⟩
  · unfold truncate
    split
    · case isTrue hgt =>
      dsimp only
      cases hrf : rfindChar (List.take MAX_SUMMARY_LENGTH s.data) '.' with
      | some i =>
        show (List.take (i + 1) (List.take MAX_SUMMARY_LENGTH s.data)).length ≤
          MAX_SUMMARY_LENGTH
        rw [List.length_take, List.length_take]
        omega
      | none =>
        show (List.take MAX_SUMMARY_LENGTH s.data).length ≤ MAX_SUMMARY_LENGTH
        rw [List.length_take]
        omega
    · case isFalse hle =>
      show s.length ≤ MAX_SUMMARY_LENGTH
      omega
  · intro hlen hdot
    unfold truncate
    rw [if_pos hlen]
    dsimp only
    cases hrf : rfindChar (List.take MAX_SUMMARY_LENGTH s.data) '.' with
    | none =>
      exfalso
      have := lastIdxP_none_spec _ _ hrf '.' hdot
      simp at this
    | some i =>
      obtain ⟨hlt, ⟨a, hget, hpa⟩, hafter⟩ := lastIdxP_some_spec _ _ _ hrf
      have ha : a = '.' := by simpa using hpa
      subst ha
      refine ⟨i, rfl, hget, ?_⟩
      intro j hj b hgetb
      have := hafter j hj b hgetb
      simpa using this

set_option maxRecDepth 8000 in
/-- C6 witness: a 301-character summary with a period at index 10. -/
theorem summary_truncation_witness :
    (String.mk (List.replicate 10 'a' ++ '.' :: List.replicate 290 'b')).length >
        MAX_SUMMARY_LENGTH
    ∧ '.' ∈ (String.mk (List.replicate 10 'a' ++ '.' :: List.replicate 290 'b')).data.take
        MAX_SUMMARY_LENGTH
    ∧ ∃ i, (truncate (String.mk (List.replicate 10 'a' ++ '.' :: List.replicate 290 'b'))
              MAX_SUMMARY_LENGTH).data =
            ((String.mk (List.replicate 10 'a' ++ '.' :: List.replicate 290 'b')).data.take
              MAX_SUMMARY_LENGTH).take (i + 1)
        ∧ ((String.mk (List.replicate 10 'a' ++ '.' :: List.replicate 290 'b')).data.take
              MAX_SUMMARY_LENGTH).get? i = some '.'
        ∧ ∀ j, i < j → ∀ a,
            ((String.mk (List.replicate 10 'a' ++ '.' :: List.replicate 290 'b')).data.take
              MAX_SUMMARY_LENGTH).get? j = some a → a ≠ '.' :=
  ⟨by decide, by decide,
   (summary_truncation
      (String.mk (List.replicate 10 'a' ++ '.' :: List.replicate 290 'b')) {} {}).2.2.2
      (by decide) (by decide)⟩

theorem pySplit_ne_nil (l : List Char) : pySplit l ≠ [] := by
  induction l with
  | nil => simp [pySplit]
  | cons c rest ih =>
    simp only [pySplit]
    cases hc : isSep c with
    | true =>
      simp only [hc, reduceIte]
      cases rest with
      | nil => simp
      | cons c2 r2 =>
        cases hc2 : isSep c2 with
        | true => simp only [hc2, reduceIte]; exact ih
        | false => simp only [hc2, Bool.false_eq_true, if_false]; simp
    | false =>
      simp only [hc, Bool.false_eq_true, if_false]
      cases hps : pySplit rest with
      | nil => simp
      | cons h t => simp

theorem pySplit_sepfree (l : List Char) :
    ∀ c ∈ pySplit l, ∀ ch ∈ c, isSep ch = false := by
  induction l with
  | nil =>
    intro c hc ch hch
    simp [pySplit] at hc
    subst hc
    cases hch
  | cons a rest ih =>
    intro c hc ch hch
    simp only [pySplit] at hc
    cases ha : isSep a with
    | false =>
      simp only [ha, Bool.false_eq_true, if_false] at hc
      cases hps : pySplit rest with
      | nil =>
        rw [hps] at hc
        simp at hc
        subst hc
        rcases List.mem_singleton.mp hch with rfl
        exact ha
      | cons h t =>
        rw [hps] at hc
        rcases List.mem_cons.mp hc with rfl | hct
        · rcases List.mem_cons.mp hch with rfl | hch2
          · exact ha
          · exact ih h (by rw [hps]; exact List.mem_cons_self _ _) ch hch2
        · exact ih c (by rw [hps]; exact List.mem_cons_of_mem _ hct) ch hch
    | true =>
      simp only [ha, reduceIte] at hc
      cases rest with
      | nil =>
        rcases List.mem_cons.mp hc with rfl | hc2
        · cases hch
        · rcases List.mem_singleton.mp hc2 with rfl
          cases hch
      | cons c2 r2 =>
        cases ha2 : isSep c2 with
        | true =>
          simp only [ha2, reduceIte] at hc
          exact ih c hc ch hch
        | false =>
          simp only [ha2, Bool.false_eq_true, if_false] at hc
          rcases List.mem_cons.mp hc with rfl | hc2
          · cases hch
          · exact ih c hc2 ch hch

theorem pySplit_append_chunk (c : List Char)
    (hsf : ∀ ch ∈ c, isSep ch = false) (l : List Char) (h : List Char)
    (t : List (List Char)) (hpl : pySplit l = h :: t) :
    pySplit (c ++ l) = (c ++ h) :: t := by
  induction c with
  | nil => simpa using hpl
  | cons ch c2 ih =>
    have hch : isSep ch = false := hsf ch (List.mem_cons_self _ _)
    have ih2 := ih (fun x hx => hsf x (List.mem_cons_of_mem _ hx))
    show pySplit (ch :: (c2 ++ l)) = ((ch :: c2) ++ h) :: t
    simp only [pySplit]
    simp only [hch, Bool.false_eq_true, if_false]
    rw [ih2]
    rfl

theorem pySplit_chunk (c : List Char) (hsf : ∀ ch ∈ c, isSep ch = false) :
    pySplit c = [c] := by
  have h := pySplit_append_chunk c hsf [] [] [] rfl
  simpa using h

theorem pySplit_comma_cons (x : Char) (xs : List Char) (hx : isSep x = false) :
    pySplit (',' :: x :: xs) = [] :: pySplit (x :: xs) := by
  conv_lhs => rw [pySplit.eq_def]
  dsimp only
  rw [show isSep ',' = true from rfl]
  simp only [reduceIte]
  rw [hx]
  simp only [Bool.false_eq_true, if_false]

theorem pySplit_joinChunks (L : List (List Char)) (hLne : L ≠ [])
    (hne : ∀ c ∈ L, c ≠ []) (hsf : ∀ c ∈ L, ∀ ch ∈ c, isSep ch = false) :
    pySplit (joinChunks L) = L := by
  induction L with
  | nil => exact absurd rfl hLne
  | cons c L2 ih =>
    cases L2 with
    | nil =>
      show pySplit (joinChunks [c]) = [c]
      exact pySplit_chunk c (hsf c (List.mem_cons_self _ _))
    | cons c2 L3 =>
      have hc2ne : c2 ≠ [] := hne c2 (List.mem_cons_of_mem _ (List.mem_cons_self _ _))
      obtain ⟨ch2, c2t, rfl⟩ : ∃ a as, c2 = a :: as := by
        cases c2 with
        | nil => exact absurd rfl hc2ne
        | cons a as => exact ⟨a, as, rfl⟩
      have hch2 : isSep ch2 = false :=
        hsf _ (List.mem_cons_of_mem _ (List.mem_cons_self _ _)) ch2
          (List.mem_cons_self _ _)
      have hIH : pySplit (joinChunks ((ch2 :: c2t) :: L3)) = (ch2 :: c2t) :: L3 :=
        ih (by simp)
          (fun x hx => hne x (List.mem_cons_of_mem _ hx))
          (fun x hx => hsf x (List.mem_cons_of_mem _ hx))
      obtain ⟨tl, htl⟩ : ∃ tl, joinChunks ((ch2 :: c2t) :: L3) = ch2 :: tl := by
        cases L3 with
        | nil => exact ⟨c2t, rfl⟩
        | cons c3 L4 => exact ⟨c2t ++ ',' :: joinChunks (c3 :: L4), rfl⟩
      have hstep : pySplit (',' :: joinChunks ((ch2 :: c2t) :: L3)) =
          [] :: (ch2 :: c2t) :: L3 := by
        rw [htl, pySplit_comma_cons ch2 tl hch2, ← htl, hIH]
      have happ := pySplit_append_chunk c (hsf c (List.mem_cons_self _ _))
        (',' :: joinChunks ((ch2 :: c2t) :: L3)) [] ((ch2 :: c2t) :: L3) hstep
      show pySplit (c ++ ',' :: joinChunks ((ch2 :: c2t) :: L3)) =
        c :: (ch2 :: c2t) :: L3
      rw [happ]
      simp

theorem tokens_roundtrip (s : String) (hv : ∀ ck ∈ pySplit s.data, ck ≠ [])
    (res : List String) (hperm : res.Perm (pySplitBugs s)) (hne : res ≠ []) :
    pySplitBugs (joinBugs res) = res ∧ joinBugs res ≠ "" := by
  have hmapne : res.map String.data ≠ [] := by
    simpa using hne
  have hmem : ∀ c ∈ res.map String.data, c ∈ pySplit s.data := by
    intro c hc
    obtain ⟨t, ht, rfl⟩ := List.mem_map.mp hc
    have ht2 : t ∈ pySplitBugs s := hperm.subset ht
    obtain ⟨ck, hck, rfl⟩ := List.mem_map.mp ht2
    simpa using hck
  have hne2 : ∀ c ∈ res.map String.data, c ≠ [] := fun c hc => hv c (hmem c hc)
  have hsf2 : ∀ c ∈ res.map String.data, ∀ ch ∈ c, isSep ch = false :=
    fun c hc => pySplit_sepfree s.data c (hmem c hc)
  have hroundtrip : pySplit (joinChunks (res.map String.data)) =
      res.map String.data :=
    pySplit_joinChunks _ hmapne hne2 hsf2
  constructor
  · show (pySplit (joinChunks (res.map String.data))).map
      (fun l => (⟨l⟩ : String)) = res
    rw [hroundtrip, List.map_map]
    have hcomp : ((fun l => (⟨l⟩ : String)) ∘ String.data) = id :=
      funext fun t => rfl
    rw [hcomp, List.map_id]
  · intro hcontra
    have hdata : joinChunks (res.map String.data) = [] :=
      congrArg String.data hcontra
    cases hm : res.map String.data with
    | nil => exact hmapne hm
    | cons c0 rest =>
      have h0 : c0 ≠ [] := hne2 c0 (by rw [hm]; exact List.mem_cons_self _ _)
      rw [hm] at hdata
      cases rest with
      | nil => exact h0 hdata
      | cons c1 r1 => simp [joinChunks] at hdata

/-- C8: for valid bug strings (empty, or nonempty separator-free tokens),
normalization is idempotent — parsing the comma-joined result of a first
normalization yields the same list — and the result is sorted by integer
value when every token parses as an int, by the lexical string order
otherwise. -/
theorem bug_list_normalization (s : String) (hv : validBugString s) :
    get_bug_list (joinBugs (get_bug_list s)) = get_bug_list s
    ∧ ((pySplitBugs s).all (fun t => (pyInt t).isSome) = true →
        List.Sorted numericLe (get_bug_list s))
    ∧ ((pySplitBugs s).all (fun t => (pyInt t).isSome) = false →
        List.Sorted strLe (get_bug_list s)) := by
  rcases hv with rfl | hv
  · exact ⟨by decide, fun _ => List.sorted_nil, fun _ => List.sorted_nil⟩
  have hs : s ≠ "" := by
    intro h
    subst h
    exact hv [] (by simp [pySplit]) rfl
  have htoksne : pySplitBugs s ≠ [] := by
    unfold pySplitBugs
    simp [pySplit_ne_nil]
  cases hnum : (pySplitBugs s).all (fun t => (pyInt t).isSome) with
  | true =>
    have hgb : get_bug_list s = List.insertionSort numericLe (pySplitBugs s) := by
      unfold get_bug_list
      rw [if_neg hs]
      dsimp only
      rw [if_pos hnum]
    have hperm := List.perm_insertionSort numericLe (pySplitBugs s)
    have hresne : List.insertionSort numericLe (pySplitBugs s) ≠ [] := by
      intro h0
      have hlen := hperm.length_eq
      rw [h0] at hlen
      exact htoksne (List.length_eq_zero.mp hlen.symm)
    obtain ⟨hround, hjoinne⟩ := tokens_roundtrip s hv _ hperm hresne
    refine ⟨?_, fun _ => ?_, fun hcontra => ?_⟩
    · rw [hgb]
      unfold get_bug_list
      rw [if_neg hjoinne]
      dsimp only
      rw [hround]
      have hall : (List.insertionSort numericLe (pySplitBugs s)).all
          (fun t => (pyInt t).isSome) = true := by
        rw [List.all_eq_true]
        intro x hx
        exact List.all_eq_true.mp hnum x (hperm.subset hx)
      rw [if_pos hall]
      exact List.Sorted.insertionSort_eq
        (List.sorted_insertionSort numericLe (pySplitBugs s))
    · rw [hgb]
      exact List.sorted_insertionSort numericLe (pySplitBugs s)
    · exact Bool.noConfusion hcontra
  | false =>
    have hgb : get_bug_list s = List.insertionSort strLe (pySplitBugs s) := by
      unfold get_bug_list
      rw [if_neg hs]
      dsimp only
      rw [if_neg (by simp [hnum])]
    have hperm := List.perm_insertionSort strLe (pySplitBugs s)
    have hresne : List.insertionSort strLe (pySplitBugs s) ≠ [] := by
      intro h0
      have hlen := hperm.length_eq
      rw [h0] at hlen
      exact htoksne (List.length_eq_zero.mp hlen.symm)
    obtain ⟨hround, hjoinne⟩ := tokens_roundtrip s hv _ hperm hresne
    refine ⟨?_, fun hcontra => ?_, fun _ => ?_⟩
    · rw [hgb]
      unfold get_bug_list
      rw [if_neg hjoinne]
      dsimp only
      rw [hround]
      have hall : (List.insertionSort strLe (pySplitBugs s)).all
          (fun t => (pyInt t).isSome) = false := by
        rcases List.all_eq_false.mp hnum with ⟨x, hx, hpx⟩
        exact List.all_eq_false.mpr ⟨x, hperm.mem_iff.mpr hx, hpx⟩
      rw [if_neg (by simp [hall])]
      exact List.Sorted.insertionSort_eq
        (List.sorted_insertionSort strLe (pySplitBugs s))
    · exact Bool.noConfusion hcontra
    · rw [hgb]
      exact List.sorted_insertionSort strLe (pySplitBugs s)

/-- C8 witness: a numeric bug list and a mixed bug list. -/
theorem bug_list_normalization_witness :
    validBugString "12,3,7"
    ∧ get_bug_list (joinBugs (get_bug_list "12,3,7")) = get_bug_list "12,3,7"
    ∧ List.Sorted numericLe (get_bug_list "12,3,7")
    ∧ get_bug_list (joinBugs (get_bug_list "12,3,bug")) = get_bug_list "12,3,bug"
    ∧ List.Sorted strLe (get_bug_list "12,3,bug") :=
  ⟨by decide,
   (bug_list_normalization "12,3,7" (by decide)).1,
   (bug_list_normalization "12,3,7" (by decide)).2.1 (by decide),
   (bug_list_normalization "12,3,bug" (by decide)).1,
   (bug_list_normalization "12,3,bug" (by decide)).2.2 (by decide)⟩

end RB
